import Mathlib

/-!
Shallow embedding of `src/Taller_NNA/data_NNA.py` (CRISP-DM data-understanding
EDA script) and proofs about its specification.

Modelling conventions:
* a dataframe cell is a `Value`: missing (`na`, pandas NaN/None), text, or an
  exact rational standing for a numeric cell;
* a `Table` is the in-memory dataframe: a row count together with the ordered
  list of named columns (pandas guarantees every column has `nrows` cells; we
  carry that as the well-formedness predicate `Table.WF`);
* Python floats are modelled by exact rationals; `round(x, 2)` is modelled by
  `round2` (round half away handled as Mathlib round of `100 * x`);
* `int(n * 0.9)` truncates its float argument; for any realistic row count
  (`n < 2 ^ 49`) the double rounding of `n * 0.9` never crosses an integer
  boundary, so it equals `⌊9 * n / 10⌋`, modelled as `9 * n / 10` on `ℕ`;
* `int(np.ceil(k / cols))` is the ceiling division `(k + cols - 1) / cols`,
  and `int(np.ceil(np.sqrt(k)))` is exact for any realistic `k` (`k < 2 ^ 52`);
* fields of the Python dicts that no claim mentions and that no other part of
  the program reads (dtype label, min/max/mean, dtype counts, memory estimate)
  are not carried by the embedding.
-/

/-- A cell of the dataframe: missing (NaN), a text value, or a numeric value. -/
inductive Value where
  | na : Value
  | txt : String → Value
  | num : ℚ → Value
deriving DecidableEq, Repr

/-- The non-missing values of a column, in order (pandas `Series.dropna`). -/
def dropna (vs : List Value) : List Value :=
  vs.filter (fun v => decide (v ≠ Value.na))

/-- Stringification of a cell (pandas `astype(str)`); only used for the sample
field, which no claim inspects. -/
def valueStr : Value → String
  | Value.na => "nan"
  | Value.txt s => s
  | Value.num q => toString q

/-- Python `round(x, 2)`: round to 2 decimal places. -/
def round2 (q : ℚ) : ℚ := ((round (100 * q) : ℤ) : ℚ) / 100

/-- A dataframe: number of rows and the ordered list of (name, cells) columns.
Mirrors the pandas `DataFrame` as used by the script. -/
structure Table where
  nrows : ℕ
  cols : List (String × List Value)
deriving DecidableEq, Repr

/-- Well-formedness: every column holds exactly `nrows` cells (a pandas
invariant of any loaded dataframe). -/
def Table.WF (t : Table) : Prop := ∀ c ∈ t.cols, c.2.length = t.nrows

/-- One record of the data dictionary (`data_dictionary` row). -/
structure DDRow where
  column : String
  non_null : ℕ
  nunique : ℕ
  missing : ℕ
  missing_pct : ℚ
  sample : String
deriving DecidableEq, Repr

/-- The data-dictionary record of one column, given the table row count `n`:
`non_null = s.notna().sum()`, `nunique = s.nunique(dropna=True)`,
`missing = s.isna().sum()`,
`missing_pct = round((missing / n) * 100 if n > 0 else 0.0, 2)`,
`sample = " | ".join(s.dropna().astype(str).head(3))`. -/
def ddRow (n : ℕ) (c : String × List Value) : DDRow :=
  { column := c.1
    non_null := (dropna c.2).length
    nunique := (dropna c.2).dedup.length
    missing := c.2.count Value.na
    missing_pct :=
      if 0 < n then round2 (((c.2.count Value.na : ℚ) / (n : ℚ)) * 100) else 0
    sample := String.intercalate " | " (((dropna c.2).take 3).map valueStr) }

/-- `data_dictionary(df)`: one record per column, `n = len(df)`. -/
def data_dictionary (t : Table) : List DDRow := t.cols.map (ddRow t.nrows)

/-- The quality-flags dictionary returned by `quality_flags`. -/
structure QualityFlags where
  rows : ℕ
  high_missing_cols : List String
  constant_cols : List String
  suspected_id_like : List String
  duplicate_rows : ℕ
deriving DecidableEq, Repr

/-- Accumulator pass behind `df.duplicated()`: counts the elements already seen
when scanning left to right (`seen` holds the elements of the prefix). -/
def dupAux {α : Type} [DecidableEq α] : List α → List α → ℕ
  | _, [] => 0
  | seen, r :: rest => (if r ∈ seen then 1 else 0) + dupAux (r :: seen) rest

/-- `df.duplicated().sum()`: the number of elements equal to an earlier one. -/
def dupCount {α : Type} [DecidableEq α] (l : List α) : ℕ := dupAux [] l

/-- Row `i` of the table (one cell per column, in column order). -/
def Table.row (t : Table) (i : ℕ) : List Value :=
  t.cols.map (fun c => c.2.getD i Value.na)

/-- The rows of the table, in order. -/
def Table.rowsList (t : Table) : List (List Value) :=
  (List.range t.nrows).map t.row

/-- `quality_flags(df, dd)`.  In the source the three column filters guard on
`"missing_pct" in dd` / `"nunique" in dd`, which fails only when `dd` has no
records; filtering an empty list returns `[]` just the same, so the guard is
absorbed.  `int(n * 0.9)` is `9 * n / 10` (see the header comment). -/
def quality_flags (t : Table) (dd : List DDRow) : QualityFlags :=
  { rows := t.nrows
    high_missing_cols :=
      (dd.filter (fun r => decide (30 < r.missing_pct))).map (fun r => r.column)
    constant_cols :=
      (dd.filter (fun r => decide (r.nunique ≤ 1))).map (fun r => r.column)
    suspected_id_like :=
      if 0 < t.nrows then
        (dd.filter (fun r => decide (max 2 (9 * t.nrows / 10) ≤ r.nunique))).map
          (fun r => r.column)
      else []
    duplicate_rows := dupCount t.rowsList }

/-- The candidate separators of `_detect_sep`. -/
def csvCandidates : List Char := [',', ';', '\t', '|']

/-- `head.count(s)` for a single-character needle. -/
def countChar (line : String) (c : Char) : ℕ := line.toList.count c

/-- The loop of `_detect_sep`: scan the candidates in order, keeping the first
one whose count strictly exceeds the best so far. -/
def pickSep (line : String) : List Char → Char × ℤ → Char × ℤ
  | [], best => best
  | s :: rest, best =>
      pickSep line rest
        (if best.2 < (countChar line s : ℤ) then (s, (countChar line s : ℤ)) else best)

/-- `_detect_sep`: best separator of the first line, starting from
`best_sep, best_count = ",", -1`. -/
def detect_sep (line : String) : Char :=
  (pickSep line csvCandidates (',', -1)).1

/-- `int(np.ceil(np.sqrt(k)))` for a natural `k`. -/
def ceil_sqrt (k : ℕ) : ℕ :=
  if Nat.sqrt k * Nat.sqrt k = k then Nat.sqrt k else Nat.sqrt k + 1

/-- `_grid_size(k)`: `(1, 1)` for `k ≤ 0`, otherwise
`cols = ceil(sqrt(k))`, `rows = ceil(k / cols)`, returned as `(rows, cols)`. -/
def grid_size (k : ℕ) : ℕ × ℕ :=
  if k ≤ 0 then (1, 1)
  else
    let cols := ceil_sqrt k
    (((k + cols - 1) / cols), cols)

/-- The regex test `^Unnamed` of the cleanup step: the name starts with the
literal `Unnamed`. -/
def unnamed_pat (name : String) : Bool :=
  decide (name.toList.take 7 = ['U', 'n', 'n', 'a', 'm', 'e', 'd'])

/-- Leading and trailing whitespace removal (Python `str.strip()`). -/
def trimChars (cs : List Char) : List Char :=
  ((cs.dropWhile Char.isWhitespace).reverse.dropWhile Char.isWhitespace).reverse

/-- `str(c).strip().replace(" ", "_")`: the column-name normalization of
`main` (the needle is the single space character, so the replacement is
character by character). -/
def norm_name (s : String) : String :=
  String.mk ((trimChars s.toList).map (fun ch => if ch = ' ' then '_' else ch))

/-- The `Unnamed` cleanup of `main`: if every column name matches `^Unnamed`
only a warning is logged and the table is left as is; otherwise the matching
columns are dropped. -/
def drop_unnamed (t : Table) : Table :=
  if t.cols.all (fun c => unnamed_pat c.1) then t
  else { t with cols := t.cols.filter (fun c => !unnamed_pat c.1) }

/-- The column renaming of `main` (`df_cols_norm.columns = [...]`). -/
def rename_cols (t : Table) : Table :=
  { t with cols := t.cols.map (fun c => (norm_name c.1, c.2)) }

/-- The full normalization `main` performs before computing anything:
`Unnamed` cleanup, then column renaming. -/
def normalize_table (t : Table) : Table := rename_cols (drop_unnamed t)

/-- `data_overview(df)` (the dtype census and memory estimate are pandas
internals no claim or later stage reads and are not carried). -/
structure Overview where
  rows : ℕ
  cols : ℕ
  columns : List String
  missing_cells : ℕ
deriving DecidableEq, Repr

/-- `data_overview(df)`: shape, column list and total missing-cell count. -/
def data_overview (t : Table) : Overview :=
  { rows := t.nrows
    cols := t.cols.length
    columns := t.cols.map (fun c => c.1)
    missing_cells := (t.cols.map (fun c => c.2.count Value.na)).sum }

/-- What one run of `main` computes and writes after the table is loaded:
the warning flag of the all-`Unnamed` branch, the normalized table, the
overview (always computed), and — only when the normalized table has at least
one column — the data dictionary, quality flags, charts and profiling tables.
`error_no_cols` records the `logger.error` of the zero-column branch. -/
structure RunResult where
  warned_all_unnamed : Bool
  table : Table
  overview : Overview
  dict : Option (List DDRow)
  flags : Option QualityFlags
  charts_run : Bool
  profiling_run : Bool
  error_no_cols : Bool
deriving DecidableEq, Repr

/-- The post-load portion of `main` as a function of the loaded table. -/
def run_pipeline (df : Table) : RunResult :=
  let warned := df.cols.all (fun c => unnamed_pat c.1)
  let t := normalize_table df
  let ov := data_overview t
  if 0 < ov.cols then
    let dd := data_dictionary t
    { warned_all_unnamed := warned
      table := t
      overview := ov
      dict := some dd
      flags := some (quality_flags t dd)
      charts_run := true
      profiling_run := true
      error_no_cols := false }
  else
    { warned_all_unnamed := warned
      table := t
      overview := ov
      dict := none
      flags := none
      charts_run := false
      profiling_run := false
      error_no_cols := true }

/-! Concrete tables used to instantiate and to refute claims. -/

/-- A 20-row table whose single column `age35` has 7 missing cells (35%). -/
def vals35 : List Value :=
  List.replicate 7 Value.na ++ (List.range 13).map (fun i => Value.num (i : ℚ))

/-- A 10-row column with 3 missing cells (30%). -/
def vals30 : List Value :=
  List.replicate 3 Value.na ++ (List.range 7).map (fun i => Value.num (i : ℚ))

/-- 20 rows, one column with 35% missing values. -/
def hmTable35 : Table := ⟨20, [("age35", vals35)]⟩

/-- 10 rows, one column with exactly 30% missing values. -/
def hmTable30 : Table := ⟨10, [("age30", vals30)]⟩

/-- 4 rows, one column `id` with 3 distinct values (uniqueness ratio 75%). -/
def idTable : Table :=
  ⟨4, [("id", [Value.num 1, Value.num 2, Value.num 3, Value.num 3])]⟩

/-- Two distinct loaded column names that collide once spaces are replaced
by underscores. -/
def collideTable : Table := ⟨1, [("a b", [Value.num 1]), ("a_b", [Value.num 2])]⟩

/-- Two columns whose names survive normalization unchanged and distinct. -/
def twoColTable : Table := ⟨1, [("a", [Value.na]), ("b", [Value.na])]⟩

/-- 2 rows, one column that is entirely missing. -/
def allNaTable : Table := ⟨2, [("x", [Value.na, Value.na])]⟩

/-- A table whose only column name matches the `Unnamed` pattern. -/
def allUnnamedTable : Table := ⟨1, [("Unnamed: 0", [Value.na])]⟩

/-- A table with no columns at all. -/
def emptyTable : Table := ⟨0, []⟩

/-! Theorems about the embedded program. -/

/-- Ceiling division characterized: for positive `a` and `b`,
`(a + b - 1) / b` is the least `q` with `a ≤ q * b`. -/
theorem ceil_div_bounds (a b : ℕ) (ha : 0 < a) (hb : 0 < b) :
    a ≤ ((a + b - 1) / b) * b ∧ (((a + b - 1) / b) - 1) * b < a := by
  have h1 : a + b - 1 = (a - 1) + b := by omega
  rw [h1, Nat.add_div_right _ hb]
  constructor
  · have h2 : (a - 1) / b < (a - 1) / b + 1 := Nat.lt_succ_self _
    have h3 : a - 1 < ((a - 1) / b + 1) * b := (Nat.div_lt_iff_lt_mul hb).mp h2
    calc a = a - 1 + 1 := by omega
    _ ≤ ((a - 1) / b + 1) * b := h3
  · have h4 : ((a - 1) / b) * b ≤ a - 1 := Nat.div_mul_le_self _ _
    have h5 : (a - 1) / b + 1 - 1 = (a - 1) / b := Nat.add_sub_cancel _ 1
    rw [h5]
    exact Nat.lt_of_le_of_lt h4 (Nat.sub_lt ha Nat.one_pos)

/-- The seen-set invariant of the duplicate scan: the duplicates found plus
the distinct elements not yet seen account for the whole length. -/
theorem dupAux_add_card {α : Type} [DecidableEq α] (l : List α) :
    ∀ seen : List α, dupAux seen l + (l.toFinset \ seen.toFinset).card = l.length := by
  induction l with
  | nil => intro seen; simp [dupAux]
  | cons r rest ih =>
    intro seen
    by_cases hr : r ∈ seen
    · have hs : ((r :: rest).toFinset \ seen.toFinset)
          = rest.toFinset \ ((r :: seen).toFinset : Finset α) := by
        ext a
        simp only [List.toFinset_cons, Finset.mem_sdiff, Finset.mem_insert,
          List.mem_toFinset]
        constructor
        · rintro ⟨hm | hm, hn⟩
          · exact absurd (hm ▸ hr) hn
          · refine ⟨hm, ?_⟩
            rintro (rfl | hsn)
            · exact hn hr
            · exact hn hsn
        · rintro ⟨hm, hn⟩
          exact ⟨Or.inr hm, fun hsn => hn (Or.inr hsn)⟩
      have hd : dupAux seen (r :: rest) = 1 + dupAux (r :: seen) rest := by
        simp [dupAux, hr]
      have hih := ih (r :: seen)
      rw [List.length_cons, hd, hs]
      omega
    · have hnm : r ∉ rest.toFinset \ ((r :: seen).toFinset : Finset α) := by
        simp [List.toFinset_cons]
      have hs : ((r :: rest).toFinset \ seen.toFinset)
          = insert r (rest.toFinset \ ((r :: seen).toFinset : Finset α)) := by
        ext a
        simp only [List.toFinset_cons, Finset.mem_sdiff, Finset.mem_insert,
          List.mem_toFinset]
        constructor
        · rintro ⟨hm | hm, hn⟩
          · exact Or.inl hm
          · by_cases har : a = r
            · exact Or.inl har
            · exact Or.inr ⟨hm, fun hx => hx.elim har hn⟩
        · rintro (rfl | ⟨hm, hn⟩)
          · exact ⟨Or.inl rfl, hr⟩
          · exact ⟨Or.inr hm, fun hx => hn (Or.inr hx)⟩
      have hd : dupAux seen (r :: rest) = dupAux (r :: seen) rest := by
        simp [dupAux, hr]
      have hih := ih (r :: seen)
      rw [List.length_cons, hd, hs, Finset.card_insert_of_not_mem hnm]
      omega

/-- The duplicate count equals length minus the number of distinct elements,
that is, every group of identical elements contributes its size minus one. -/
theorem dupCount_eq_sub {α : Type} [DecidableEq α] (l : List α) :
    dupCount l = l.length - l.dedup.length := by
  have h := dupAux_add_card l []
  simp only [List.toFinset_nil, Finset.sdiff_empty] at h
  rw [List.card_toFinset] at h
  unfold dupCount
  omega

/-- C9: `duplicate_rows` counts the rows that exactly duplicate an earlier
row: the total number of rows minus the number of distinct rows, so each
group of identical rows contributes its size minus one and first occurrences
are never counted. -/
theorem duplicate_rows_spec (t : Table) :
    (quality_flags t (data_dictionary t)).duplicate_rows
      = t.rowsList.length - t.rowsList.dedup.length ∧
    t.rowsList.length = t.nrows :=
  ⟨dupCount_eq_sub t.rowsList, by simp [Table.rowsList]⟩

/-- C3: with delimiter `auto` the detector returns the candidate from
`[",", ";", tab, "|"]` with the highest occurrence count in the first line,
ties resolved in favor of the earliest-listed candidate, and on the line
`a,b;c,d,e` it returns `,`. -/
theorem detect_sep_spec :
    (∀ line : String,
        detect_sep line ∈ csvCandidates ∧
        (∀ c ∈ csvCandidates, countChar line c ≤ countChar line (detect_sep line)) ∧
        (∀ c ∈ csvCandidates, countChar line c = countChar line (detect_sep line) →
            csvCandidates.indexOf (detect_sep line) ≤ csvCandidates.indexOf c)) ∧
    detect_sep "a,b;c,d,e" = ',' := by
  constructor
  · intro line
    simp only [detect_sep, csvCandidates, pickSep]
    split_ifs with h1 h2 h3 h4 h5 h6 h7 h8 h9 h10 h11 h12 h13 h14 <;>
      dsimp only at * <;>
        refine ⟨by decide, ?_, ?_⟩ <;>
          intro c hc <;> fin_cases hc <;>
            first
              | omega
              | (intro h; first | omega | decide)
  · decide

/-- C3 witness: on the concrete line the detector picks `,`, and the count of
`;` is at most the count of the winner. -/
theorem detect_sep_spec_witness :
    detect_sep "a,b;c,d,e" = ',' ∧
    countChar "a,b;c,d,e" ';' ≤ countChar "a,b;c,d,e" (detect_sep "a,b;c,d,e") :=
  ⟨detect_sep_spec.2, (detect_sep_spec.1 "a,b;c,d,e").2.1 ';' (by decide)⟩

/-- C6: for positive `k` the grid has `cols = ceil(sqrt(k))` (the least `c`
with `k ≤ c * c`) and `rows = ceil(k / cols)` (the least `r` with
`k ≤ r * cols`), and for `k = 7` the grid is 3 rows by 3 columns. -/
theorem grid_size_spec (k : ℕ) (hk : 0 < k) :
    (k ≤ (grid_size k).2 * (grid_size k).2 ∧
      ((grid_size k).2 - 1) * ((grid_size k).2 - 1) < k) ∧
    (k ≤ (grid_size k).1 * (grid_size k).2 ∧
      ((grid_size k).1 - 1) * (grid_size k).2 < k) ∧
    grid_size 7 = (3, 3) := by
  have hk0 : ¬ k ≤ 0 := by omega
  have hs1 : 0 < Nat.sqrt k := Nat.sqrt_pos.mpr hk
  have hsle := Nat.sqrt_le k
  have hslt := Nat.lt_succ_sqrt k
  have hcols : 0 < ceil_sqrt k := by
    unfold ceil_sqrt; split <;> omega
  have hcol1 : k ≤ ceil_sqrt k * ceil_sqrt k := by
    unfold ceil_sqrt
    split
    · omega
    · exact Nat.le_of_lt hslt
  have hcol2 : (ceil_sqrt k - 1) * (ceil_sqrt k - 1) < k := by
    unfold ceil_sqrt
    split
    · next heq =>
      obtain ⟨t, ht⟩ : ∃ t, Nat.sqrt k = t + 1 := ⟨Nat.sqrt k - 1, by omega⟩
      rw [ht]
      simp only [Nat.add_sub_cancel]
      nlinarith
    · next hne =>
      simp only [Nat.add_sub_cancel]
      omega
  have h7 : grid_size 7 = (3, 3) := by
    have hs7 : Nat.sqrt 7 = 2 := (Nat.eq_sqrt.mpr (by norm_num)).symm
    simp [grid_size, ceil_sqrt, hs7]
  have hrows := ceil_div_bounds k (ceil_sqrt k) hk hcols
  simp only [grid_size, if_neg hk0]
  exact ⟨⟨hcol1, hcol2⟩, ⟨hrows.1, hrows.2⟩, h7⟩

/-- C6 witness: the theorem applied at `k = 7` gives the 3 by 3 grid. -/
theorem grid_size_spec_witness :
    0 < 7 ∧ (grid_size 7).2 = 3 ∧ (grid_size 7).1 = 3 := by
  have h := grid_size_spec 7 (by norm_num)
  exact ⟨by norm_num, by rw [h.2.2], by rw [h.2.2]⟩

/-- `round2` of a nonnegative rational is nonnegative. -/
theorem round2_nonneg {q : ℚ} (h : 0 ≤ q) : 0 ≤ round2 q := by
  rw [round2]
  have h1 : (0:ℤ) ≤ round (100 * q) := by
    rw [round_eq]
    exact Int.le_floor.mpr (by push_cast; linarith)
  have h2 : (0:ℚ) ≤ ((round (100 * q) : ℤ) : ℚ) := by exact_mod_cast h1
  exact div_nonneg h2 (by norm_num)

/-- `round2` of a rational at most 100 is at most 100. -/
theorem round2_le_100 {q : ℚ} (h : q ≤ 100) : round2 q ≤ 100 := by
  rw [round2]
  have h1 : round (100 * q) ≤ 10000 := by
    rw [round_eq]
    calc ⌊100 * q + 1 / 2⌋ ≤ ⌊(10000 : ℚ) + 1 / 2⌋ := Int.floor_mono (by linarith)
    _ = 10000 := by norm_num [Int.floor_eq_iff]
  have h2 : ((round (100 * q) : ℤ) : ℚ) ≤ 10000 := by exact_mod_cast h1
  linarith

/-- C5: every data-dictionary record stores
`missing_pct = round2(missing / nrows * 100)` when the table has rows, `0`
when it has none, and the stored value always lies in `[0, 100]`. -/
theorem missing_pct_spec (t : Table) (hwf : t.WF) :
    ∀ r ∈ data_dictionary t,
      (0 < t.nrows →
          r.missing_pct = round2 (((r.missing : ℚ) / (t.nrows : ℚ)) * 100)) ∧
      (t.nrows = 0 → r.missing_pct = 0) ∧
      0 ≤ r.missing_pct ∧ r.missing_pct ≤ 100 := by
  intro r hr
  rw [data_dictionary, List.mem_map] at hr
  obtain ⟨c, hc, rfl⟩ := hr
  have hcount : c.2.count Value.na ≤ t.nrows :=
    hwf c hc ▸ List.count_le_length _ _
  by_cases hn : 0 < t.nrows
  · have hpos : (0:ℚ) < (t.nrows : ℚ) := by exact_mod_cast hn
    have hle : (c.2.count Value.na : ℚ) ≤ (t.nrows : ℚ) := by exact_mod_cast hcount
    have hq0 : (0:ℚ) ≤ ((c.2.count Value.na : ℚ) / (t.nrows : ℚ)) * 100 := by positivity
    have hq1 : ((c.2.count Value.na : ℚ) / (t.nrows : ℚ)) * 100 ≤ 100 := by
      have hd : (c.2.count Value.na : ℚ) / (t.nrows : ℚ) ≤ 1 := by
        rw [div_le_one hpos]; exact hle
      nlinarith
    have hpct : (ddRow t.nrows c).missing_pct
        = round2 (((c.2.count Value.na : ℚ) / (t.nrows : ℚ)) * 100) := by
      simp [ddRow, hn]
    refine ⟨fun _ => ?_, fun h0 => absurd h0 (by omega), ?_, ?_⟩
    · rw [hpct]; rfl
    · rw [hpct]; exact round2_nonneg hq0
    · rw [hpct]; exact round2_le_100 hq1
  · have h0 : t.nrows = 0 := by omega
    have hpct : (ddRow t.nrows c).missing_pct = 0 := by simp [ddRow, h0]
    exact ⟨fun h => absurd h hn, fun _ => hpct, by rw [hpct], by rw [hpct]; norm_num⟩

/-- C5 witness: the record of the 35%-missing column of the concrete table has
its stored percentage inside `[0, 100]`. -/
theorem missing_pct_spec_witness :
    0 ≤ (ddRow hmTable35.nrows ("age35", vals35)).missing_pct ∧
    (ddRow hmTable35.nrows ("age35", vals35)).missing_pct ≤ 100 := by
  have hwf : hmTable35.WF := by unfold Table.WF; decide
  have hmem : ddRow hmTable35.nrows ("age35", vals35) ∈ data_dictionary hmTable35 := by
    rw [data_dictionary]
    exact List.mem_map_of_mem _ (by decide)
  exact ⟨(missing_pct_spec hmTable35 hwf _ hmem).2.2.1,
    (missing_pct_spec hmTable35 hwf _ hmem).2.2.2⟩

/-- C1 counterexample: in a 4-row table the column `id` with 3 distinct values
is listed in `suspected_id_like` by the code, yet its unique count 3 is below
the threshold `max(2, ceil(0.9 * 4)) = 4` the claim states, so the claimed
ceiling rule is false of the program. -/
theorem suspected_id_ceil_cex :
    "id" ∈ (quality_flags idTable (data_dictionary idTable)).suspected_id_like ∧
    ∀ r ∈ data_dictionary idTable, r.column = "id" →
      r.nunique < max 2 ((9 * idTable.nrows + 9) / 10) := by
  constructor
  · decide
  · decide

/-- C1 (amended): a column is listed in `suspected_id_like` exactly when its
unique count is at least `max(2, floor(0.9 * row_count))` — Python
`int(n * 0.9)` truncates, it does not take the ceiling — and the list is empty
when the row count is 0. -/
theorem suspected_id_spec (t : Table) :
    (t.nrows = 0 → (quality_flags t (data_dictionary t)).suspected_id_like = []) ∧
    (0 < t.nrows → ∀ name : String,
        (name ∈ (quality_flags t (data_dictionary t)).suspected_id_like ↔
          ∃ r ∈ data_dictionary t, r.column = name ∧
            max 2 (9 * t.nrows / 10) ≤ r.nunique)) := by
  constructor
  · intro h0
    simp [quality_flags, h0]
  · intro hn name
    simp only [quality_flags, if_pos hn, List.mem_map, List.mem_filter,
      decide_eq_true_eq]
    constructor
    · rintro ⟨r, ⟨hr, hle⟩, rfl⟩
      exact ⟨r, hr, rfl, hle⟩
    · rintro ⟨r, hr, rfl, hle⟩
      exact ⟨r, ⟨hr, hle⟩, rfl⟩

/-- C1 witness: the amended rule applied to the concrete 4-row table puts
`id` (3 distinct values, floor threshold 3) in the list. -/
theorem suspected_id_spec_witness :
    0 < idTable.nrows ∧
    "id" ∈ (quality_flags idTable (data_dictionary idTable)).suspected_id_like := by
  refine ⟨by decide, ?_⟩
  refine ((suspected_id_spec idTable).2 (by decide) "id").mpr ?_
  refine ⟨ddRow idTable.nrows ("id",
    [Value.num 1, Value.num 2, Value.num 3, Value.num 3]), ?_, rfl, by decide⟩
  rw [data_dictionary]
  exact List.mem_map_of_mem _ (by decide)

/-- C4: a column is listed in `high_missing_cols` exactly when its recorded
missing percentage is strictly greater than 30; a 35%-missing column is
listed and an exactly-30%-missing column is not. -/
theorem high_missing_spec :
    (∀ (t : Table) (name : String),
        name ∈ (quality_flags t (data_dictionary t)).high_missing_cols ↔
          ∃ r ∈ data_dictionary t, r.column = name ∧ 30 < r.missing_pct) ∧
    "age35" ∈ (quality_flags hmTable35 (data_dictionary hmTable35)).high_missing_cols ∧
    "age30" ∉ (quality_flags hmTable30 (data_dictionary hmTable30)).high_missing_cols := by
  have hiff : ∀ (t : Table) (name : String),
      name ∈ (quality_flags t (data_dictionary t)).high_missing_cols ↔
        ∃ r ∈ data_dictionary t, r.column = name ∧ 30 < r.missing_pct := by
    intro t name
    simp only [quality_flags, List.mem_map, List.mem_filter, decide_eq_true_eq]
    constructor
    · rintro ⟨r, ⟨hr, hlt⟩, rfl⟩
      exact ⟨r, hr, rfl, hlt⟩
    · rintro ⟨r, hr, rfl, hlt⟩
      exact ⟨r, ⟨hr, hlt⟩, rfl⟩
  have hc35 : vals35.count Value.na = 7 := by decide
  have h35 : (ddRow hmTable35.nrows ("age35", vals35)).missing_pct = 35 := by
    simp only [ddRow, hmTable35]
    rw [if_pos (by norm_num : (0:ℕ) < 20), hc35, round2]
    norm_num
  have hc30 : vals30.count Value.na = 3 := by decide
  have h30 : (ddRow hmTable30.nrows ("age30", vals30)).missing_pct = 30 := by
    simp only [ddRow, hmTable30]
    rw [if_pos (by norm_num : (0:ℕ) < 10), hc30, round2]
    norm_num
  refine ⟨hiff, ?_, ?_⟩
  · refine (hiff hmTable35 "age35").mpr ?_
    refine ⟨ddRow hmTable35.nrows ("age35", vals35), ?_, rfl, by rw [h35]; norm_num⟩
    rw [data_dictionary]
    exact List.mem_map_of_mem _ (by decide)
  · intro hmem
    obtain ⟨r, hr, hcol, hlt⟩ := (hiff hmTable30 "age30").mp hmem
    rw [data_dictionary] at hr
    simp only [hmTable30, List.map_cons, List.map_nil, List.mem_singleton] at hr
    rw [hr] at hlt
    rw [show ddRow (10:ℕ) ("age30", vals30) = ddRow hmTable30.nrows ("age30", vals30)
        from rfl, h30] at hlt
    norm_num at hlt

/-- C4 witness: the 35%-missing column of the concrete table is listed. -/
theorem high_missing_spec_witness :
    "age35" ∈ (quality_flags hmTable35 (data_dictionary hmTable35)).high_missing_cols :=
  high_missing_spec.2.1

/-- C10: in a table with rows, a column whose cells are all missing gets a
unique-value count of 0 in the data dictionary (missing values are excluded
from the unique count) and is therefore listed in `constant_cols`. -/
theorem all_missing_constant (t : Table) (_hn : 0 < t.nrows)
    (name : String) (vs : List Value) (hmem : (name, vs) ∈ t.cols)
    (hall : ∀ v ∈ vs, v = Value.na) :
    (∃ r ∈ data_dictionary t, r.column = name ∧ r.nunique = 0) ∧
    name ∈ (quality_flags t (data_dictionary t)).constant_cols := by
  have hdrop : dropna vs = [] := by
    rw [dropna, List.filter_eq_nil_iff]
    intro a ha
    simp [hall a ha]
  have hnuniq : (ddRow t.nrows (name, vs)).nunique = 0 := by
    simp [ddRow, hdrop]
  have hrmem : ddRow t.nrows (name, vs) ∈ data_dictionary t := by
    rw [data_dictionary]
    exact List.mem_map_of_mem _ hmem
  refine ⟨⟨_, hrmem, rfl, hnuniq⟩, ?_⟩
  simp only [quality_flags, List.mem_map]
  refine ⟨ddRow t.nrows (name, vs), ?_, rfl⟩
  rw [List.mem_filter]
  exact ⟨hrmem, by simp [hnuniq]⟩

/-- C10 witness: the all-missing column of the concrete 2-row table lands in
`constant_cols`. -/
theorem all_missing_constant_witness :
    0 < allNaTable.nrows ∧
    "x" ∈ (quality_flags allNaTable (data_dictionary allNaTable)).constant_cols :=
  ⟨by decide,
    (all_missing_constant allNaTable (by decide) "x" [Value.na, Value.na]
      (by decide) (by decide)).2⟩

/-- C2 counterexample: the loaded names `a b` and `a_b` are distinct, yet
after normalization both become `a_b`, so the normalized column names of a
loaded table need not be pairwise distinct. -/
theorem normalize_unique_cex :
    ((collideTable.cols.map (fun c => c.1)).Nodup) ∧
    ¬ (((normalize_table collideTable).cols.map (fun c => c.1)).Nodup) := by
  constructor
  · decide
  · decide

/-- C2 (amended): after normalization the column names are pairwise distinct
provided the loaded names are pairwise distinct and no two of them are
identified by the normalization map (trim plus space-to-underscore); without
that injectivity proviso uniqueness can fail. -/
theorem normalize_unique_spec (t : Table)
    (h1 : (t.cols.map (fun c => c.1)).Nodup)
    (h2 : ∀ c₁ ∈ t.cols, ∀ c₂ ∈ t.cols,
        norm_name c₁.1 = norm_name c₂.1 → c₁.1 = c₂.1) :
    ((normalize_table t).cols.map (fun c => c.1)).Nodup := by
  have hsub : (drop_unnamed t).cols.Sublist t.cols := by
    rw [drop_unnamed]
    split
    · exact List.Sublist.refl _
    · exact List.filter_sublist _
  have hnames : ((drop_unnamed t).cols.map (fun c => c.1)).Nodup :=
    (hsub.map _).nodup h1
  have heq : (normalize_table t).cols.map (fun c => c.1)
      = ((drop_unnamed t).cols.map (fun c => c.1)).map norm_name := by
    simp [normalize_table, rename_cols, List.map_map, Function.comp]
  rw [heq]
  refine hnames.map_on ?_
  intro x hx y hy hxy
  rw [List.mem_map] at hx hy
  obtain ⟨c1, hc1, rfl⟩ := hx
  obtain ⟨c2, hc2, rfl⟩ := hy
  exact h2 c1 (hsub.subset hc1) c2 (hsub.subset hc2) hxy

/-- C2 witness: a table with the collision-free names `a` and `b` keeps
distinct names through normalization. -/
theorem normalize_unique_spec_witness :
    ((twoColTable.cols.map (fun c => c.1)).Nodup) ∧
    ((normalize_table twoColTable).cols.map (fun c => c.1)).Nodup :=
  ⟨by decide, normalize_unique_spec twoColTable (by decide) (by decide)⟩

/-- C7: when the normalized table has zero columns the pipeline records the
logged error, computes only the overview, and produces no data dictionary, no
quality flags, no charts and no profiling tables. -/
theorem pipeline_no_cols (df : Table)
    (h : (normalize_table df).cols.length = 0) :
    (run_pipeline df).error_no_cols = true ∧
    (run_pipeline df).dict = none ∧
    (run_pipeline df).flags = none ∧
    (run_pipeline df).charts_run = false ∧
    (run_pipeline df).profiling_run = false ∧
    (run_pipeline df).overview = data_overview (normalize_table df) := by
  have hov : ¬ 0 < (data_overview (normalize_table df)).cols := by
    simp [data_overview, h]
  simp [run_pipeline, hov]

/-- C7 witness: the empty table normalizes to zero columns and the pipeline
records the error. -/
theorem pipeline_no_cols_witness :
    (normalize_table emptyTable).cols.length = 0 ∧
    (run_pipeline emptyTable).error_no_cols = true :=
  ⟨by decide, (pipeline_no_cols emptyTable (by decide)).1⟩

/-- C8: if every loaded column name matches the `Unnamed` pattern, the strip
step is skipped (the table passes through unchanged) and only the warning is
recorded; otherwise every `Unnamed`-pattern column is removed, none survives,
and every derived structure is computed from the stripped (then renamed)
table. -/
theorem unnamed_handling (df : Table) :
    (df.cols.all (fun c => unnamed_pat c.1) = true →
        drop_unnamed df = df ∧ (run_pipeline df).warned_all_unnamed = true) ∧
    (df.cols.all (fun c => unnamed_pat c.1) = false →
        (run_pipeline df).warned_all_unnamed = false ∧
        (drop_unnamed df).cols = df.cols.filter (fun c => !unnamed_pat c.1) ∧
        (∀ c ∈ (drop_unnamed df).cols, unnamed_pat c.1 = false) ∧
        (0 < (normalize_table df).cols.length →
            (run_pipeline df).dict
              = some (data_dictionary (rename_cols (drop_unnamed df))))) := by
  constructor
  · intro hall
    refine ⟨by rw [drop_unnamed, if_pos hall], ?_⟩
    simp only [run_pipeline]
    split <;> simp [hall]
  · intro hnall
    have hwarn : (run_pipeline df).warned_all_unnamed = false := by
      simp only [run_pipeline]
      split <;> simp [hnall]
    have hcols : (drop_unnamed df).cols = df.cols.filter (fun c => !unnamed_pat c.1) := by
      rw [drop_unnamed, if_neg (by simp [hnall])]
    refine ⟨hwarn, hcols, ?_, ?_⟩
    · intro c hc
      rw [hcols, List.mem_filter] at hc
      simpa using hc.2
    · intro hpos
      have hov : 0 < (data_overview (normalize_table df)).cols := by
        simpa [data_overview] using hpos
      simp only [run_pipeline, if_pos hov]
      rfl

/-- C8 witness: the all-`Unnamed` table passes through unchanged, and on the
`id` table the strip step equals the filter that removes pattern columns. -/
theorem unnamed_handling_witness :
    (drop_unnamed allUnnamedTable = allUnnamedTable) ∧
    ((drop_unnamed idTable).cols = idTable.cols.filter (fun c => !unnamed_pat c.1)) :=
  ⟨((unnamed_handling allUnnamedTable).1 (by decide)).1,
    (((unnamed_handling idTable).2 (by decide)).2.1)⟩
